import Mathlib

/-
Verification of the requirement resolver in mousebender/resolve.py.

The resolver code (class WheelProvider and its data model) is embedded
shallowly: the external packaging library types (versions, specifier sets,
markers, canonical names) are modelled by their order/evaluation behaviour,
which is all the resolver uses; the mutable per-run state (the project-files
cache and the in-place metadata attachment done by fetch_metadata) is made
explicit by passing and returning state values.
-/

namespace Mousebender

/-- Distribution names as plain strings. -/
abbrev DistName := String

/-- Compatibility tags (interpreter-abi-platform triples); the resolver only
tests them for equality and membership, so they are modelled as strings. -/
abbrev Tag := String

/-- PEP 440 versions are totally ordered (external packaging library).  The
resolver only compares versions and tests specifier membership, so the order
type is modelled by the naturals. -/
abbrev Version := Nat

/-- Whether a character is one of the separators collapsed by name
canonicalization. -/
def isSep (c : Char) : Bool := c = '-' || c = '_' || c = '.'

/-- Character-level canonicalization: collapse each run of separators into a
single dash and lowercase everything else.  The boolean records whether the
previous character was part of a separator run. -/
def canonChars : Bool → List Char → List Char
  | _, [] => []
  | prevSep, c :: cs =>
    if isSep c then
      if prevSep then canonChars true cs else '-' :: canonChars true cs
    else c.toLower :: canonChars false cs

/-- packaging.utils.canonicalize_name: lowercase and collapse runs of
dash, underscore and dot into a single dash. -/
def canonicalizeName (s : String) : String := String.mk (canonChars false s.data)

/-- Comparison operators of version specifiers (external packaging library). -/
inductive SpecOp
  | eq
  | ne
  | lt
  | le
  | gt
  | ge
deriving DecidableEq

/-- A single version-specifier clause. -/
structure Specifier where
  op : SpecOp
  ver : Version
deriving DecidableEq

/-- packaging.specifiers.SpecifierSet: a conjunction of clauses. -/
abbrev SpecifierSet := List Specifier

/-- Membership of a version in one specifier clause. -/
def Specifier.containsVer (s : Specifier) (v : Version) : Bool :=
  match s.op with
  | .eq => v == s.ver
  | .ne => v != s.ver
  | .lt => decide (v < s.ver)
  | .le => decide (v ≤ s.ver)
  | .gt => decide (v > s.ver)
  | .ge => decide (v ≥ s.ver)

/-- Membership of a version in a specifier set: every clause must hold. -/
def SpecifierSet.containsVer (ss : SpecifierSet) (v : Version) : Bool :=
  ss.all (fun s => s.containsVer v)

/-- Marker environments: the string-to-string mapping of marker values. -/
abbrev Env := String → String

/-- Marker expressions (external packaging.markers): variable comparisons
combined with boolean connectives. -/
inductive Marker
  | varEq (key val : String)
  | conj (a b : Marker)
  | disj (a b : Marker)
  | neg (a : Marker)
deriving DecidableEq

/-- Marker evaluation against an environment. -/
def Marker.evaluate : Marker → Env → Bool
  | .varEq k v, env => env k == v
  | .conj a b, env => a.evaluate env && b.evaluate env
  | .disj a b, env => a.evaluate env || b.evaluate env
  | .neg a, env => !(a.evaluate env)

/-- The dict union environment with key extra bound to e, as built by
get_dependencies for extras-augmented marker evaluation. -/
def envWithExtra (env : Env) (e : String) : Env :=
  fun k => if k = "extra" then e else env k

/-- packaging.requirements.Requirement: name, extras, specifier set and an
optional marker.  The marker field is mutable in the source; state passing
makes its updates explicit. -/
structure PackagingRequirement where
  name : String
  extras : Finset String
  specifier : SpecifierSet
  marker : Option Marker
deriving DecidableEq

/-- Resolver identifiers: a pair of canonical name and canonicalized extras
set (type Identifier in resolve.py). -/
abbrev Identifier := DistName × Finset String

/-- Class Requirement of resolve.py: wraps a packaging requirement. -/
structure Requirement where
  req : PackagingRequirement
deriving DecidableEq

/-- The identifier computed by the Requirement initializer: canonicalized
name and canonicalized extras. -/
def Requirement.identifier (r : Requirement) : Identifier :=
  (canonicalizeName r.req.name, r.req.extras.image canonicalizeName)

/-- packaging.metadata.Metadata, restricted to the fields the resolver
reads: the requires-python constraint and the dependency list. -/
structure Metadata where
  requiresPython : Option SpecifierSet
  requiresDist : List PackagingRequirement
deriving DecidableEq

/-- Class Wheel of resolve.py: the parsed wheel filename tuple. -/
structure Wheel where
  name : DistName
  version : Version
  buildTag : Option (Nat × String)
  tags : List Tag
deriving DecidableEq

/-- Class WheelFile of resolve.py: the parsed wheel plus the
requires-python entry of the project file details, and the lazily attached
metadata (None until fetch_metadata runs). -/
structure WheelFile where
  wheel : Wheel
  detailsRequiresPython : Option SpecifierSet
  metadata : Option Metadata
deriving DecidableEq

/-- The name field copied from the parsed wheel in the initializer. -/
def WheelFile.name (f : WheelFile) : DistName := f.wheel.name

/-- The version field copied from the parsed wheel in the initializer. -/
def WheelFile.version (f : WheelFile) : Version := f.wheel.version

/-- Class Candidate of resolve.py. -/
structure Candidate where
  identifier : Identifier
  file : WheelFile
deriving DecidableEq

/-- Class WheelProvider of resolve.py: environment data plus the abstract
subclass responsibilities.  availableFiles models the available_files hook;
fetchMetadataFor models which metadata fetch_metadata attaches in place to a
given file of its batch. -/
structure WheelProvider where
  pythonVersion : Version
  environment : Env
  tags : List Tag
  availableFiles : DistName → List WheelFile
  fetchMetadataFor : WheelFile → Metadata

/-- WheelFile.is_compatible: at least one advertised tag is in the
provider's tag order, and a declared requires-python constraint, if present
in the file details, admits the provider's python version. -/
def WheelFile.is_compatible (f : WheelFile) (p : WheelProvider) : Bool :=
  if !(f.wheel.tags.any (fun t => decide (t ∈ p.tags))) then
    false
  else
    match f.detailsRequiresPython with
    | some rp => if !(rp.containsVer p.pythonVersion) then false else true
    | none => true

/-- WheelProvider._metadata_is_compatible: the file's fetched metadata
either declares no truthy requires-python constraint or one admitting the
provider's python version.  The source asserts that metadata is present;
the none branch is unreachable where the method is called. -/
def WheelProvider.metadata_is_compatible (p : WheelProvider) (f : WheelFile) : Bool :=
  match f.metadata with
  | none => false
  | some md =>
    match md.requiresPython with
    | none => true
    | some rp =>
      if rp.isEmpty then true
      else if !(rp.containsVer p.pythonVersion) then false
      else true

/-- WheelProvider._is_satisfied_by_file: name matches the requirement's
canonicalized name and the version is in the requirement's specifier. -/
def WheelProvider.is_satisfied_by_file (_p : WheelProvider) (f : WheelFile)
    (r : Requirement) : Bool :=
  f.name == canonicalizeName r.req.name && r.req.specifier.containsVer f.version

/-- First index of the provider tag order whose tag the wheel advertises:
the for/else loop of candidate_sort_key. -/
def firstTagIdx (wheelTags : List Tag) : List Tag → Option Nat
  | [] => none
  | t :: ts =>
    if t ∈ wheelTags then some 0 else (firstTagIdx wheelTags ts).map (· + 1)

/-- Build tags: either absent (None or the empty tuple) or a pair of a
number and a string, as parsed from the wheel filename. -/
abbrev BuildTag := Option (Nat × String)

/-- The sort key triple returned by candidate_sort_key. -/
abbrev SortKey := Version × Nat × BuildTag

/-- WheelProvider.candidate_sort_key.  The none result models the
ValueError raised when no tag of the wheel occurs in the tag order. -/
def WheelProvider.candidate_sort_key (p : WheelProvider) (c : Candidate) :
    Option SortKey :=
  match firstTagIdx c.file.wheel.tags p.tags with
  | none => none
  | some i => some (c.file.version, p.tags.length - i, c.file.wheel.buildTag)

/-- Python ordering of the build-tag component: the empty tuple precedes
every pair, and pairs compare lexicographically. -/
def buildTagLE : BuildTag → BuildTag → Bool
  | none, _ => true
  | some _, none => false
  | some (n₁, s₁), some (n₂, s₂) =>
    if n₁ < n₂ then true
    else if n₂ < n₁ then false
    else decide (s₁ ≤ s₂)

/-- Python tuple ordering of sort keys: lexicographic on version, tag rank
and build tag. -/
def sortKeyLE : SortKey → SortKey → Bool
  | (v₁, r₁, b₁), (v₂, r₂, b₂) =>
    if v₁ < v₂ then true
    else if v₂ < v₁ then false
    else if r₁ < r₂ then true
    else if r₂ < r₁ then false
    else buildTagLE b₁ b₂

/-- Ordering on optional sort keys; the none case is unreachable for the
candidates find_matches sorts (claim C10). -/
def optKeyLE : Option SortKey → Option SortKey → Bool
  | none, _ => true
  | some _, none => false
  | some k₁, some k₂ => sortKeyLE k₁ k₂

/-- The comparator realizing sorted with key candidate_sort_key and
reverse true: x precedes y when the key of x is at least the key of y. -/
def candGE (p : WheelProvider) (x y : Candidate) : Bool :=
  optKeyLE (p.candidate_sort_key y) (p.candidate_sort_key x)

/-- The mutable per-run state of the provider: the _project_files_cache
mapping names to the filtered file lists. -/
structure ProviderState where
  cache : DistName → Option (List WheelFile)

/-- The state at the start of a run: an empty cache. -/
def emptyState : ProviderState := ⟨fun _ => none⟩

/-- WheelProvider.get_preference: the number of candidates enumerable for
the identifier, computed as the sum of one per element of the iterator (the
resolutions argument is unused, as in the source; the information and
backtrack-causes arguments are likewise unused and omitted). -/
def WheelProvider.get_preference (_p : WheelProvider) (identifier : Identifier)
    (_resolutions : Identifier → Option Candidate)
    (candidates : Identifier → List Candidate) : Nat :=
  (((candidates identifier).map (fun _ => (1 : Nat))).sum)

/-- The cache-filling step of find_matches: reuse the cached list for the
name, or filter the available files on environment compatibility.  The
requirements mapping supplied by the resolution engine yields the
currently-active requirement list afresh at each subscript, which is how
the iterator-valued mapping behaves at the call sites. -/
def ensureFiles (p : WheelProvider) (st : ProviderState) (name : DistName) :
    List WheelFile :=
  match st.cache name with
  | some fs => fs
  | none => (p.availableFiles name).filter (fun f => f.is_compatible p)

/-- The name passed to available_files by the cache-filling step, when the
name is not cached yet. -/
def ensureQueried (st : ProviderState) (name : DistName) : Option DistName :=
  match st.cache name with
  | some _ => none
  | none => some name

/-- The per-file loop of find_matches: break out (dropping every file) as
soon as the identifier has no entry in the requirements mapping, and
otherwise keep the files satisfying all active requirements. -/
def filterLoop (p : WheelProvider)
    (requirements : Identifier → Option (List Requirement))
    (identifier : Identifier) : List WheelFile → List WheelFile
  | [] => []
  | f :: fs =>
    match requirements identifier with
    | none => []
    | some reqs =>
      if reqs.all (fun r => p.is_satisfied_by_file f r) then
        f :: filterLoop p requirements identifier fs
      else
        filterLoop p requirements identifier fs

/-- The in-place effect of fetch_metadata on one file of its batch. -/
def attachMetadata (p : WheelProvider) (f : WheelFile) : WheelFile :=
  { f with metadata := some (p.fetchMetadataFor f) }

/-- The filtered_files list of find_matches. -/
def fmFiltered (p : WheelProvider) (st : ProviderState) (identifier : Identifier)
    (requirements : Identifier → Option (List Requirement)) : List WheelFile :=
  filterLoop p requirements identifier (ensureFiles p st identifier.1)

/-- The missing_metadata batch of find_matches: the filtered files whose
metadata is still None. -/
def fmBatch (p : WheelProvider) (st : ProviderState) (identifier : Identifier)
    (requirements : Identifier → Option (List Requirement)) : List WheelFile :=
  (fmFiltered p st identifier requirements).filter (fun f => f.metadata.isNone)

/-- The effect of the fetch_metadata call on a file value: files of the
batch gain their fetched metadata in place, all others are untouched. -/
def fmAttach (p : WheelProvider) (st : ProviderState) (identifier : Identifier)
    (requirements : Identifier → Option (List Requirement))
    (f : WheelFile) : WheelFile :=
  if f ∈ fmBatch p st identifier requirements then attachMetadata p f else f

/-- The fully_filtered_files list of find_matches: the filtered files after
metadata attachment, kept when their metadata is compatible. -/
def fmFully (p : WheelProvider) (st : ProviderState) (identifier : Identifier)
    (requirements : Identifier → Option (List Requirement)) : List WheelFile :=
  ((fmFiltered p st identifier requirements).map
    (fmAttach p st identifier requirements)).filter
      (fun f => p.metadata_is_compatible f)

/-- The candidates surviving the incompatibility filter in find_matches. -/
def fmKept (p : WheelProvider) (st : ProviderState) (identifier : Identifier)
    (requirements : Identifier → Option (List Requirement))
    (incompatibilities : Identifier → List Candidate) : List Candidate :=
  ((fmFully p st identifier requirements).map
    (fun f => Candidate.mk identifier f)).filter
      (fun c => decide (c ∉ incompatibilities identifier))

/-- The observable outcome of one find_matches call: the returned sequence
(none when the ValueError of candidate_sort_key propagates), the provider
state after the call, the batch passed to fetch_metadata, and the name
passed to available_files when the cache was filled. -/
structure FindMatchesResult where
  returned : Option (List Candidate)
  state : ProviderState
  fetchedBatch : List WheelFile
  availQueried : Option DistName

/-- WheelProvider.find_matches.  Because fetch_metadata mutates the file
objects in place and the cached list aliases them, the post-call cache entry
for the name carries the attached metadata. -/
def WheelProvider.find_matches (p : WheelProvider) (st : ProviderState)
    (identifier : Identifier)
    (requirements : Identifier → Option (List Requirement))
    (incompatibilities : Identifier → List Candidate) : FindMatchesResult :=
  let name := identifier.1
  let files := ensureFiles p st name
  let files' := files.map (fmAttach p st identifier requirements)
  let state' : ProviderState :=
    ⟨fun n => if n = name then some files' else st.cache n⟩
  let kept := fmKept p st identifier requirements incompatibilities
  let result :=
    if kept.all (fun c => (p.candidate_sort_key c).isSome) then
      some (kept.mergeSort (candGE p))
    else
      none
  ⟨result, state', fmBatch p st identifier requirements, ensureQueried st name⟩

/-- The packaging requirement with the marker removed: the effect of the
marker-stripping loop at the end of get_dependencies on one entry. -/
def stripMarker (r : PackagingRequirement) : PackagingRequirement :=
  { r with marker := none }

/-- The if/elif chain of get_dependencies deciding whether a dependency
entry of the metadata is emitted: no marker, or the marker is true in the
environment, or extras are present and the marker is true with some extra
bound. -/
def WheelProvider.dependencyIncluded (p : WheelProvider) (extras : Finset String)
    (r : PackagingRequirement) : Bool :=
  match r.marker with
  | none => true
  | some m =>
    if m.evaluate p.environment then true
    else if extras.Nonempty ∧ ∃ e ∈ extras, m.evaluate (envWithExtra p.environment e) then
      true
    else false

/-- The synthesized self-pin emitted first by get_dependencies when the
candidate's identifier carries extras: the parse of the string formed of
the name and the double-equals pin to the candidate's version. -/
def selfPinReqs (c : Candidate) : List PackagingRequirement :=
  if c.identifier.2.Nonempty then
    [{ name := c.identifier.1, extras := ∅,
       specifier := [⟨SpecOp.eq, c.file.version⟩], marker := none }]
  else
    []

/-- WheelProvider.get_dependencies.  Returns the emitted requirement list
and the candidate's metadata after the call: the marker-stripping loop sets
the marker to None on each emitted requirement's packaging object, and for
entries taken from the metadata dependency list that object is the
metadata's own entry, so the metadata is updated in place.  The none result
models the assertion failure on a metadata-pending candidate. -/
def WheelProvider.get_dependencies (p : WheelProvider) (c : Candidate) :
    List Requirement × Option Metadata :=
  match c.file.metadata with
  | none => ([], none)
  | some md =>
    let extras := c.identifier.2
    let included := md.requiresDist.filter (fun r => p.dependencyIncluded extras r)
    let reqs := (selfPinReqs c ++ included).map (fun r => Requirement.mk (stripMarker r))
    let dist' := md.requiresDist.map
      (fun r => if p.dependencyIncluded extras r then stripMarker r else r)
    (reqs, some { md with requiresDist := dist' })

/-- One find_matches invocation of a resolver run: the arguments the
resolution engine supplies. -/
structure ResolveCall where
  identifier : Identifier
  requirements : Identifier → Option (List Requirement)
  incompatibilities : Identifier → List Candidate

/-- A resolver run as a sequence of find_matches calls threading the
provider state. -/
def runCalls (p : WheelProvider) (st : ProviderState) :
    List ResolveCall → ProviderState × List FindMatchesResult
  | [] => (st, [])
  | c :: cs =>
    let r := p.find_matches st c.identifier c.requirements c.incompatibilities
    let rest := runCalls p r.state cs
    (rest.1, r :: rest.2)

/-- Environment compatibility of a file: at least one advertised tag occurs
in the provider's tag order, and its listed requires-python constraint, when
present, admits the provider's python version. -/
def compatFile (p : WheelProvider) (f : WheelFile) : Prop :=
  (∃ t ∈ f.wheel.tags, t ∈ p.tags) ∧
    f.detailsRequiresPython.all (fun rp => rp.containsVer p.pythonVersion) = true

/-- Well-formedness of the project-files cache: every cached file is
environment compatible. -/
def CacheWF (p : WheelProvider) (st : ProviderState) : Prop :=
  ∀ n l, st.cache n = some l → ∀ f ∈ l, compatFile p f

/-- The name has a cache entry that does not contain the given file value;
used to show a fetched file is never fetched again. -/
def FetchedGone (f : WheelFile) (n : DistName) (st : ProviderState) : Prop :=
  ∃ l, st.cache n = some l ∧ f ∉ l

/-- The conclusion of claim C1: find_matches returns exactly the candidates
carrying the identifier that wrap cached environment-compatible files whose
name is the identifier's name, whose version is in every active
requirement's specifier, whose fetched metadata declares no interpreter
constraint or one admitting the provider's python version, and that are not
in the incompatibility set, ordered most preferred first. -/
def FindMatchesSpec (p : WheelProvider) (st : ProviderState)
    (identifier : Identifier)
    (requirements : Identifier → Option (List Requirement))
    (incompatibilities : Identifier → List Candidate)
    (reqs : List Requirement) : Prop :=
  ∃ out,
    (p.find_matches st identifier requirements incompatibilities).returned = some out ∧
    (∀ c, c ∈ out ↔
      ∃ fl f,
        (p.find_matches st identifier requirements incompatibilities).state.cache
            identifier.1 = some fl ∧
        f ∈ fl ∧
        c = Candidate.mk identifier f ∧
        compatFile p f ∧
        f.name = identifier.1 ∧
        (∀ r ∈ reqs, r.req.specifier.containsVer f.version = true) ∧
        (∃ md, f.metadata = some md ∧
          (md.requiresPython = none ∨ md.requiresPython = some [] ∨
            ∃ rp, md.requiresPython = some rp ∧
              rp.containsVer p.pythonVersion = true)) ∧
        c ∉ incompatibilities identifier) ∧
    out.Pairwise (fun a b => candGE p a b = true)

/-- The conclusion of claim C7: every batch handed to fetch_metadata in a
run holds only metadata-pending files, and two calls on the same name never
fetch the same file twice. -/
def FetchOnceSpec (p : WheelProvider) (st : ProviderState)
    (calls : List ResolveCall) : Prop :=
  (∀ r ∈ (runCalls p st calls).2, ∀ f ∈ r.fetchedBatch, f.metadata = none) ∧
  List.Pairwise
    (fun a b => a.1.identifier.1 = b.1.identifier.1 →
      ∀ f, f ∈ a.2.fetchedBatch → f ∉ b.2.fetchedBatch)
    (calls.zip (runCalls p st calls).2)

/-- The conclusion of claim C6: at the end of a run from an empty cache,
every cached name was filled by exactly one available_files call, and every
retained file is environment compatible. -/
def CacheRunSpec (p : WheelProvider) (calls : List ResolveCall) : Prop :=
  ∀ n l, (runCalls p emptyState calls).1.cache n = some l →
    (runCalls p emptyState calls).2.countP
        (fun r => decide (r.availQueried = some n)) = 1 ∧
    ∀ f ∈ l, compatFile p f

/-- The build-tag component mapped into its order type: bottom for the
absent build tag, lexicographic pairs otherwise. -/
def buildTagVal : BuildTag → WithBot (Lex (Nat × String))
  | none => ⊥
  | some (n, s) => (toLex (n, s) : Lex (Nat × String))

/-- The sort key mapped into its lexicographic order type. -/
def sortKeyVal (k : SortKey) : Lex (Nat × Lex (Nat × WithBot (Lex (Nat × String)))) :=
  toLex (k.1, toLex (k.2.1, buildTagVal k.2.2))

/-- Optional sort keys mapped into their order type, none below all. -/
def optKeyVal : Option SortKey → WithBot (Lex (Nat × Lex (Nat × WithBot (Lex (Nat × String)))))
  | none => ⊥
  | some k => (sortKeyVal k : Lex (Nat × Lex (Nat × WithBot (Lex (Nat × String)))))

/-
Concrete fixtures used by the witness theorems and the failing-input
evaluation.  The wheels mirror the repository's test data: a distribution
spam with an older metadata-pending wheel and a newer wheel whose metadata
is already attached.
-/

/-- A marker environment with python version 3.12. -/
def envTest : Env := fun k => if k = "python_version" then "3.12" else ""

/-- Metadata declaring nothing. -/
def mdPlain : Metadata := ⟨none, []⟩

/-- The older spam wheel, metadata still pending. -/
def fileOld : WheelFile := ⟨⟨"spam", 1, none, ["py3-none-any"]⟩, none, none⟩

/-- The newer spam wheel, with a build tag and attached metadata. -/
def fileNew : WheelFile := ⟨⟨"spam", 2, some (1, "a"), ["py3-none-any"]⟩, none, some mdPlain⟩

/-- A provider for python 3.12 knowing the two spam wheels. -/
def testProvider : WheelProvider :=
  ⟨312, envTest, ["cp313-cp313-linux", "py3-none-any"],
    fun n => if n = "spam" then [fileOld, fileNew] else [],
    fun _ => mdPlain⟩

/-- A bare requirement on spam with no specifier. -/
def reqSpam : Requirement := ⟨⟨"spam", ∅, [], none⟩⟩

/-- A requirements mapping with the bare spam requirement active. -/
def reqsSpamOnly : Identifier → Option (List Requirement) :=
  fun i => if i = ("spam", (∅ : Finset String)) then some [reqSpam] else none

/-- A requirements mapping with no entries. -/
def noReqs : Identifier → Option (List Requirement) := fun _ => none

/-- An empty incompatibility mapping. -/
def noIncompat : Identifier → List Candidate := fun _ => []

/-- The find_matches call on bare spam. -/
def callSpam : ResolveCall := ⟨("spam", ∅), reqsSpamOnly, noIncompat⟩

/-- A marker requiring the extra bonus. -/
def markerBonus : Marker := .varEq "extra" "bonus"

/-- A dependency on bacon gated on the extra bonus. -/
def depBacon : PackagingRequirement := ⟨"bacon", ∅, [], some markerBonus⟩

/-- Metadata whose dependency list holds the gated entry. -/
def mdBonus : Metadata := ⟨none, [depBacon]⟩

/-- A spam wheel carrying the gated-dependency metadata. -/
def fileBonus : WheelFile := ⟨⟨"spam", 3, none, ["py3-none-any"]⟩, none, some mdBonus⟩

/-- The candidate for spam with the extra bonus wrapping that wheel. -/
def candBonus : Candidate := ⟨("spam", {"bonus"}), fileBonus⟩

/-- The candidate wrapping the newer spam wheel with the bare identifier. -/
def candNew : Candidate := ⟨("spam", (∅ : Finset String)), fileNew⟩

/-- A candidates mapping enumerating one candidate for bare spam. -/
def candsOneSpam : Identifier → List Candidate :=
  fun i => if i = ("spam", (∅ : Finset String)) then [candNew] else []

/-- A resolutions mapping with nothing pinned. -/
def noResolutions : Identifier → Option Candidate := fun _ => none

/-- A provider state with a non-empty cached list for spam. -/
def cachedState : ProviderState :=
  ⟨fun n => if n = "spam" then some [fileOld, fileNew] else none⟩

/-
Order lemmas: the boolean comparators agree with the lexicographic linear
orders they implement, giving transitivity and totality.
-/

theorem buildTagLE_iff (b₁ b₂ : BuildTag) :
    buildTagLE b₁ b₂ = true ↔ buildTagVal b₁ ≤ buildTagVal b₂ := by
  cases b₁ with
  | none => simp [buildTagLE, buildTagVal]
  | some a =>
    cases b₂ with
    | none =>
      obtain ⟨n₁, s₁⟩ := a
      simp [buildTagLE, buildTagVal, WithBot.not_coe_le_bot]
    | some b =>
      obtain ⟨n₁, s₁⟩ := a
      obtain ⟨n₂, s₂⟩ := b
      show (if n₁ < n₂ then true
        else if n₂ < n₁ then false else decide (s₁ ≤ s₂)) = true ↔ _
      simp only [buildTagVal, WithBot.coe_le_coe, Prod.Lex.le_iff]
      by_cases h₁ : n₁ < n₂
      · rw [if_pos h₁]
        simp only [true_iff]
        exact Or.inl h₁
      · by_cases h₂ : n₂ < n₁
        · rw [if_neg h₁, if_pos h₂]
          simp only [Bool.false_eq_true, false_iff]
          rintro (h | ⟨h, -⟩) <;> omega
        · have hv : n₁ = n₂ := by omega
          subst hv
          rw [if_neg h₁, if_neg h₂]
          simp [h₁]

theorem sortKeyLE_iff (k₁ k₂ : SortKey) :
    sortKeyLE k₁ k₂ = true ↔ sortKeyVal k₁ ≤ sortKeyVal k₂ := by
  obtain ⟨v₁, r₁, b₁⟩ := k₁
  obtain ⟨v₂, r₂, b₂⟩ := k₂
  show (if v₁ < v₂ then true
    else if v₂ < v₁ then false
    else if r₁ < r₂ then true
    else if r₂ < r₁ then false else buildTagLE b₁ b₂) = true ↔ _
  simp only [sortKeyVal, Prod.Lex.le_iff]
  by_cases hv₁ : v₁ < v₂
  · rw [if_pos hv₁]
    simp [hv₁]
  · by_cases hv₂ : v₂ < v₁
    · rw [if_neg hv₁, if_pos hv₂]
      simp only [Bool.false_eq_true, false_iff]
      rintro (h | ⟨h, -⟩)
      · exact hv₁ h
      · exact hv₂.ne h.symm
    · have hv : v₁ = v₂ := le_antisymm (not_lt.mp hv₂) (not_lt.mp hv₁)
      subst hv
      rw [if_neg hv₁, if_neg hv₂]
      by_cases hr₁ : r₁ < r₂
      · rw [if_pos hr₁]
        simp [hr₁]
      · by_cases hr₂ : r₂ < r₁
        · rw [if_neg hr₁, if_pos hr₂]
          simp only [Bool.false_eq_true, false_iff]
          rintro (h | ⟨-, h | ⟨h, -⟩⟩)
          · exact hv₁ h
          · exact hr₁ h
          · exact hr₂.ne h.symm
        · have hr : r₁ = r₂ := le_antisymm (not_lt.mp hr₂) (not_lt.mp hr₁)
          subst hr
          rw [if_neg hr₁, if_neg hr₂, buildTagLE_iff]
          constructor
          · intro h
            exact Or.inr ⟨rfl, Or.inr ⟨rfl, h⟩⟩
          · rintro (h | ⟨-, h | ⟨-, h⟩⟩)
            · exact absurd h hv₁
            · exact absurd h hr₁
            · exact h

theorem optKeyLE_iff (o₁ o₂ : Option SortKey) :
    optKeyLE o₁ o₂ = true ↔ optKeyVal o₁ ≤ optKeyVal o₂ := by
  cases o₁ with
  | none => simp [optKeyLE, optKeyVal]
  | some k₁ =>
    cases o₂ with
    | none => simp [optKeyLE, optKeyVal, WithBot.not_coe_le_bot]
    | some k₂ => simp [optKeyLE, optKeyVal, WithBot.coe_le_coe, sortKeyLE_iff]

theorem candGE_trans (p : WheelProvider) (a b c : Candidate) :
    candGE p a b = true → candGE p b c = true → candGE p a c = true := by
  simp only [candGE, optKeyLE_iff]
  exact fun h₁ h₂ => le_trans h₂ h₁

theorem candGE_total (p : WheelProvider) (a b : Candidate) :
    (candGE p a b || candGE p b a) = true := by
  simp only [Bool.or_eq_true, candGE, optKeyLE_iff]
  exact le_total (optKeyVal (p.candidate_sort_key b))
    (optKeyVal (p.candidate_sort_key a))

/-
Characterizations of the compatibility checks and the filtering loop.
-/

theorem is_compatible_iff (p : WheelProvider) (f : WheelFile) :
    f.is_compatible p = true ↔ compatFile p f := by
  unfold WheelFile.is_compatible compatFile
  by_cases ht : f.wheel.tags.any (fun t => decide (t ∈ p.tags)) = true
  · rw [if_neg (by simp [ht])]
    have ht' : ∃ t ∈ f.wheel.tags, t ∈ p.tags := by simpa [List.any_eq_true] using ht
    cases hd : f.detailsRequiresPython with
    | none => simp [ht', Option.all]
    | some rp =>
      by_cases hc : rp.containsVer p.pythonVersion = true
      · simp [hc, ht', Option.all]
      · simp [hc, ht', Option.all]
  · rw [if_pos (by simp [Bool.not_eq_true] at ht ⊢; exact ht)]
    have ht' : ¬∃ t ∈ f.wheel.tags, t ∈ p.tags := by
      simpa [List.any_eq_true] using ht
    simp [ht']

theorem metadata_is_compatible_iff (p : WheelProvider) (f : WheelFile) :
    p.metadata_is_compatible f = true ↔
      ∃ md, f.metadata = some md ∧
        (md.requiresPython = none ∨ md.requiresPython = some [] ∨
          ∃ rp, md.requiresPython = some rp ∧
            rp.containsVer p.pythonVersion = true) := by
  unfold WheelProvider.metadata_is_compatible
  cases hm : f.metadata with
  | none => simp
  | some md =>
    simp only [Option.some.injEq, exists_eq_left']
    cases hrp : md.requiresPython with
    | none => simp [hrp]
    | some rp =>
      simp only [hrp]
      by_cases he : rp.isEmpty = true
      · have he' : rp = [] := by simpa using he
        subst he'
        simp
      · have he' : rp ≠ [] := by simpa using he
        by_cases hc : rp.containsVer p.pythonVersion = true
        · simp [he, hc, he']
        · simp [he, hc, he']

theorem filterLoop_of_none (p : WheelProvider)
    (requirements : Identifier → Option (List Requirement)) (identifier : Identifier)
    (h : requirements identifier = none) :
    ∀ files, filterLoop p requirements identifier files = [] := by
  intro files
  cases files with
  | nil => rfl
  | cons f fs => simp [filterLoop, h]

theorem filterLoop_of_some (p : WheelProvider)
    (requirements : Identifier → Option (List Requirement)) (identifier : Identifier)
    (reqs : List Requirement) (h : requirements identifier = some reqs) :
    ∀ files, filterLoop p requirements identifier files =
      files.filter (fun f => reqs.all (fun r => p.is_satisfied_by_file f r)) := by
  intro files
  induction files with
  | nil => rfl
  | cons f fs ih =>
    simp only [filterLoop, h, List.filter_cons]
    by_cases hf : reqs.all (fun r => p.is_satisfied_by_file f r) = true
    · simp [hf, ih]
    · simp [hf, ih]

theorem mem_filterLoop (p : WheelProvider)
    (requirements : Identifier → Option (List Requirement)) (identifier : Identifier)
    (files : List WheelFile) (f : WheelFile)
    (h : f ∈ filterLoop p requirements identifier files) : f ∈ files := by
  cases hr : requirements identifier with
  | none =>
    rw [filterLoop_of_none p requirements identifier hr] at h
    cases h
  | some reqs =>
    rw [filterLoop_of_some p requirements identifier reqs hr] at h
    exact List.mem_of_mem_filter h

theorem fmAttach_wheel (p : WheelProvider) (st : ProviderState)
    (identifier : Identifier) (requirements : Identifier → Option (List Requirement))
    (f : WheelFile) :
    (fmAttach p st identifier requirements f).wheel = f.wheel := by
  unfold fmAttach attachMetadata
  split <;> rfl

theorem fmAttach_details (p : WheelProvider) (st : ProviderState)
    (identifier : Identifier) (requirements : Identifier → Option (List Requirement))
    (f : WheelFile) :
    (fmAttach p st identifier requirements f).detailsRequiresPython =
      f.detailsRequiresPython := by
  unfold fmAttach attachMetadata
  split <;> rfl

theorem compatFile_fmAttach (p : WheelProvider) (st : ProviderState)
    (identifier : Identifier) (requirements : Identifier → Option (List Requirement))
    (f : WheelFile) (h : compatFile p f) :
    compatFile p (fmAttach p st identifier requirements f) := by
  obtain ⟨h₁, h₂⟩ := h
  refine ⟨?_, ?_⟩
  · rw [fmAttach_wheel]
    exact h₁
  · rw [fmAttach_details]
    exact h₂

theorem ensureFiles_compat (p : WheelProvider) (st : ProviderState) (n : DistName)
    (hwf : CacheWF p st) :
    ∀ f ∈ ensureFiles p st n, compatFile p f := by
  intro f hf
  unfold ensureFiles at hf
  cases hc : st.cache n with
  | some l =>
    rw [hc] at hf
    exact hwf n l hc f hf
  | none =>
    rw [hc] at hf
    exact (is_compatible_iff p f).mp (List.mem_filter.mp hf).2

theorem firstTagIdx_none_iff (w ts : List Tag) :
    firstTagIdx w ts = none ↔ ∀ t ∈ ts, t ∉ w := by
  induction ts with
  | nil => simp [firstTagIdx]
  | cons t ts ih =>
    simp only [firstTagIdx]
    by_cases h : t ∈ w
    · simp [h]
    · simp [h, Option.map_eq_none', ih]

theorem firstTagIdx_isLeast (w ts : List Tag) (i : Nat)
    (h : firstTagIdx w ts = some i) :
    IsLeast {j | j < ts.length ∧ ts.getD j "" ∈ w} i := by
  induction ts generalizing i with
  | nil => cases h
  | cons t ts ih =>
    simp only [firstTagIdx] at h
    by_cases hm : t ∈ w
    · rw [if_pos hm] at h
      cases h
      constructor
      · exact ⟨Nat.succ_pos _, by simpa using hm⟩
      · intro j _
        exact Nat.zero_le j
    · rw [if_neg hm] at h
      obtain ⟨i', hi', hadd⟩ := Option.map_eq_some'.mp h
      subst hadd
      obtain ⟨⟨hlt, hget⟩, hleast⟩ := ih i' hi'
      constructor
      · exact ⟨Nat.succ_lt_succ hlt, by simpa using hget⟩
      · rintro j ⟨hjl, hjg⟩
        cases j with
        | zero =>
          rw [List.getD_cons_zero] at hjg
          exact absurd hjg hm
        | succ j' =>
          rw [List.getD_cons_succ] at hjg
          exact Nat.succ_le_succ (hleast ⟨Nat.lt_of_succ_lt_succ hjl, hjg⟩)

theorem sort_key_isSome_of_compat (p : WheelProvider) (c : Candidate)
    (h : ∃ t ∈ c.file.wheel.tags, t ∈ p.tags) :
    (p.candidate_sort_key c).isSome = true := by
  cases hi : firstTagIdx c.file.wheel.tags p.tags with
  | none =>
    obtain ⟨t, htw, htp⟩ := h
    exact absurd htw ((firstTagIdx_none_iff _ _).mp hi t htp)
  | some i =>
    unfold WheelProvider.candidate_sort_key
    rw [hi]
    rfl

/-
Projection lemmas unfolding find_matches into its stages.
-/

theorem find_matches_returned (p : WheelProvider) (st : ProviderState)
    (identifier : Identifier) (requirements : Identifier → Option (List Requirement))
    (incompatibilities : Identifier → List Candidate) :
    (p.find_matches st identifier requirements incompatibilities).returned =
      if (fmKept p st identifier requirements incompatibilities).all
          (fun c => (p.candidate_sort_key c).isSome) then
        some ((fmKept p st identifier requirements incompatibilities).mergeSort
          (candGE p))
      else none := rfl

theorem find_matches_state (p : WheelProvider) (st : ProviderState)
    (identifier : Identifier) (requirements : Identifier → Option (List Requirement))
    (incompatibilities : Identifier → List Candidate) (n : DistName) :
    (p.find_matches st identifier requirements incompatibilities).state.cache n =
      if n = identifier.1 then
        some ((ensureFiles p st identifier.1).map
          (fmAttach p st identifier requirements))
      else st.cache n := rfl

theorem find_matches_batch (p : WheelProvider) (st : ProviderState)
    (identifier : Identifier) (requirements : Identifier → Option (List Requirement))
    (incompatibilities : Identifier → List Candidate) :
    (p.find_matches st identifier requirements incompatibilities).fetchedBatch =
      fmBatch p st identifier requirements := rfl

theorem find_matches_avail (p : WheelProvider) (st : ProviderState)
    (identifier : Identifier) (requirements : Identifier → Option (List Requirement))
    (incompatibilities : Identifier → List Candidate) :
    (p.find_matches st identifier requirements incompatibilities).availQueried =
      ensureQueried st identifier.1 := rfl

theorem mem_fmFully (p : WheelProvider) (st : ProviderState)
    (identifier : Identifier) (requirements : Identifier → Option (List Requirement))
    (f : WheelFile) :
    f ∈ fmFully p st identifier requirements ↔
      (∃ g, g ∈ fmFiltered p st identifier requirements ∧
        fmAttach p st identifier requirements g = f) ∧
      p.metadata_is_compatible f = true := by
  unfold fmFully
  rw [List.mem_filter, List.mem_map]

theorem mem_fmKept (p : WheelProvider) (st : ProviderState)
    (identifier : Identifier) (requirements : Identifier → Option (List Requirement))
    (incompatibilities : Identifier → List Candidate) (c : Candidate) :
    c ∈ fmKept p st identifier requirements incompatibilities ↔
      ∃ f, f ∈ fmFully p st identifier requirements ∧
        c = Candidate.mk identifier f ∧ c ∉ incompatibilities identifier := by
  unfold fmKept
  rw [List.mem_filter, List.mem_map]
  simp only [decide_eq_true_eq]
  constructor
  · rintro ⟨⟨f, hf, rfl⟩, hni⟩
    exact ⟨f, hf, rfl, hni⟩
  · rintro ⟨f, hf, rfl, hni⟩
    exact ⟨⟨f, hf, rfl⟩, hni⟩

theorem fmFiltered_compat (p : WheelProvider) (st : ProviderState)
    (identifier : Identifier) (requirements : Identifier → Option (List Requirement))
    (hwf : CacheWF p st) :
    ∀ g ∈ fmFiltered p st identifier requirements, compatFile p g :=
  fun g hg => ensureFiles_compat p st identifier.1 hwf g
    (mem_filterLoop p requirements identifier _ g hg)

theorem fmKept_keys (p : WheelProvider) (st : ProviderState)
    (identifier : Identifier) (requirements : Identifier → Option (List Requirement))
    (incompatibilities : Identifier → List Candidate) (hwf : CacheWF p st) :
    (fmKept p st identifier requirements incompatibilities).all
      (fun c => (p.candidate_sort_key c).isSome) = true := by
  rw [List.all_eq_true]
  intro c hc
  obtain ⟨f, hf, rfl, -⟩ :=
    (mem_fmKept p st identifier requirements incompatibilities c).mp hc
  obtain ⟨⟨g, hg, hfg⟩, -⟩ := (mem_fmFully p st identifier requirements f).mp hf
  have hcompat : compatFile p g :=
    fmFiltered_compat p st identifier requirements hwf g hg
  have hcf : compatFile p f :=
    hfg ▸ compatFile_fmAttach p st identifier requirements g hcompat
  exact sort_key_isSome_of_compat p (Candidate.mk identifier f) hcf.1

theorem find_matches_returned_some (p : WheelProvider) (st : ProviderState)
    (identifier : Identifier) (requirements : Identifier → Option (List Requirement))
    (incompatibilities : Identifier → List Candidate) (hwf : CacheWF p st) :
    (p.find_matches st identifier requirements incompatibilities).returned =
      some ((fmKept p st identifier requirements incompatibilities).mergeSort
        (candGE p)) := by
  rw [find_matches_returned,
    if_pos (fmKept_keys p st identifier requirements incompatibilities hwf)]

/-- Claim C1: with a well-formed cache and a non-empty list of active
requirements all carrying the queried identifier, find_matches returns
exactly the candidates with that identifier wrapping cached
environment-compatible files whose name is the identifier's name, whose
version satisfies every active requirement's specifier, whose fetched
metadata declares no interpreter constraint or one admitting the provider's
python version, and that are not in the incompatibility set, sorted most
preferred first. -/
theorem find_matches_characterization (p : WheelProvider) (st : ProviderState)
    (identifier : Identifier) (requirements : Identifier → Option (List Requirement))
    (incompatibilities : Identifier → List Candidate) (reqs : List Requirement)
    (hreq : requirements identifier = some reqs)
    (hne : reqs ≠ [])
    (hid : ∀ r ∈ reqs, r.identifier = identifier)
    (hwf : CacheWF p st) :
    FindMatchesSpec p st identifier requirements incompatibilities reqs := by
  refine ⟨(fmKept p st identifier requirements incompatibilities).mergeSort (candGE p),
    find_matches_returned_some p st identifier requirements incompatibilities hwf,
    ?_, ?_⟩
  · intro c
    rw [List.mem_mergeSort, mem_fmKept]
    constructor
    · rintro ⟨f, hf, rfl, hni⟩
      obtain ⟨⟨g, hg, hfg⟩, hmc⟩ := (mem_fmFully p st identifier requirements f).mp hf
      have hgfiles : g ∈ ensureFiles p st identifier.1 :=
        mem_filterLoop p requirements identifier _ g hg
      have hsat : ∀ r ∈ reqs, p.is_satisfied_by_file g r = true := by
        unfold fmFiltered at hg
        rw [filterLoop_of_some p requirements identifier reqs hreq] at hg
        have h2 := (List.mem_filter.mp hg).2
        simpa [List.all_eq_true] using h2
      have hcompatg : compatFile p g :=
        ensureFiles_compat p st identifier.1 hwf g hgfiles
      have hfn : f.name = g.name := by
        rw [← hfg]
        show (fmAttach p st identifier requirements g).wheel.name = g.wheel.name
        rw [fmAttach_wheel]
      have hfv : f.version = g.version := by
        rw [← hfg]
        show (fmAttach p st identifier requirements g).wheel.version = g.wheel.version
        rw [fmAttach_wheel]
      refine ⟨(ensureFiles p st identifier.1).map
          (fmAttach p st identifier requirements), f, ?_, ?_, rfl, ?_, ?_, ?_, ?_, hni⟩
      · rw [find_matches_state, if_pos rfl]
      · exact hfg ▸ List.mem_map_of_mem _ hgfiles
      · exact hfg ▸ compatFile_fmAttach p st identifier requirements g hcompatg
      · obtain ⟨r₀, hr₀⟩ := List.exists_mem_of_ne_nil reqs hne
        have hs := hsat r₀ hr₀
        unfold WheelProvider.is_satisfied_by_file at hs
        rw [Bool.and_eq_true] at hs
        have hname : g.name = canonicalizeName r₀.req.name := eq_of_beq hs.1
        have hcn : canonicalizeName r₀.req.name = identifier.1 :=
          congrArg Prod.fst (hid r₀ hr₀)
        rw [hfn, hname, hcn]
      · intro r hr
        have hs := hsat r hr
        unfold WheelProvider.is_satisfied_by_file at hs
        rw [Bool.and_eq_true] at hs
        rw [hfv]
        exact hs.2
      · exact (metadata_is_compatible_iff p f).mp hmc
    · rintro ⟨fl, f, hfl, hmem, rfl, _hcompat, hname, hvers, hmd, hni⟩
      rw [find_matches_state, if_pos rfl, Option.some.injEq] at hfl
      subst hfl
      obtain ⟨g, hgfiles, hfg⟩ := List.mem_map.mp hmem
      have hfn : f.name = g.name := by
        rw [← hfg]
        show (fmAttach p st identifier requirements g).wheel.name = g.wheel.name
        rw [fmAttach_wheel]
      have hfv : f.version = g.version := by
        rw [← hfg]
        show (fmAttach p st identifier requirements g).wheel.version = g.wheel.version
        rw [fmAttach_wheel]
      have hsat : ∀ r ∈ reqs, p.is_satisfied_by_file g r = true := by
        intro r hr
        unfold WheelProvider.is_satisfied_by_file
        rw [Bool.and_eq_true]
        constructor
        · have hcn : canonicalizeName r.req.name = identifier.1 :=
            congrArg Prod.fst (hid r hr)
          rw [hcn, ← hname, ← hfn]
          exact beq_self_eq_true _
        · rw [← hfv]
          exact hvers r hr
      have hgfilt : g ∈ fmFiltered p st identifier requirements := by
        unfold fmFiltered
        rw [filterLoop_of_some p requirements identifier reqs hreq, List.mem_filter]
        exact ⟨hgfiles, List.all_eq_true.mpr hsat⟩
      have hmc : p.metadata_is_compatible f = true :=
        (metadata_is_compatible_iff p f).mpr hmd
      exact ⟨f, (mem_fmFully p st identifier requirements f).mpr
        ⟨⟨g, hgfilt, hfg⟩, hmc⟩, rfl, hni⟩
  · exact List.sorted_mergeSort (candGE_trans p) (candGE_total p)
      (fmKept p st identifier requirements incompatibilities)

/-- Claim C10: every candidate in the sequence returned by find_matches has
a defined sort key, so the ValueError branch of candidate_sort_key (no
compatible tag) is unreachable for them: with a well-formed cache every
retained file passed the compatibility check requiring a tag of the wheel
to appear in the provider's tag order. -/
theorem find_matches_sort_key_safe (p : WheelProvider) (st : ProviderState)
    (identifier : Identifier) (requirements : Identifier → Option (List Requirement))
    (incompatibilities : Identifier → List Candidate) (hwf : CacheWF p st) :
    ∃ out,
      (p.find_matches st identifier requirements incompatibilities).returned =
        some out ∧
      ∀ c ∈ out, (p.candidate_sort_key c).isSome = true := by
  refine ⟨_, find_matches_returned_some p st identifier requirements
    incompatibilities hwf, ?_⟩
  intro c hc
  rw [List.mem_mergeSort] at hc
  exact List.all_eq_true.mp
    (fmKept_keys p st identifier requirements incompatibilities hwf) c hc

/-- Claim C9: when the identifier has no entry in the requirements mapping,
the per-file loop of find_matches retains nothing, and find_matches returns
the empty sequence even when the cached file list for the name is
non-empty. -/
theorem find_matches_no_active_requirements (p : WheelProvider) (st : ProviderState)
    (identifier : Identifier) (requirements : Identifier → Option (List Requirement))
    (incompatibilities : Identifier → List Candidate)
    (h : requirements identifier = none) :
    fmFiltered p st identifier requirements = [] ∧
    (p.find_matches st identifier requirements incompatibilities).returned =
      some [] := by
  have hfl : fmFiltered p st identifier requirements = [] :=
    filterLoop_of_none p requirements identifier h _
  refine ⟨hfl, ?_⟩
  have hkept : fmKept p st identifier requirements incompatibilities = [] := by
    unfold fmKept fmFully
    rw [hfl]
    rfl
  rw [find_matches_returned, hkept]
  simp [List.mergeSort_nil]

/-- Claim C8: get_preference returns the number of candidates currently
enumerable for the identifier, so an identity with fewer remaining
candidates receives a smaller preference value. -/
theorem get_preference_counts (p : WheelProvider)
    (resolutions : Identifier → Option Candidate)
    (candidates : Identifier → List Candidate) (i₁ i₂ : Identifier)
    (h : (candidates i₁).length < (candidates i₂).length) :
    (∀ j, p.get_preference j resolutions candidates = (candidates j).length) ∧
    p.get_preference i₁ resolutions candidates <
      p.get_preference i₂ resolutions candidates := by
  have hlen : ∀ j, p.get_preference j resolutions candidates =
      (candidates j).length := by
    intro j
    unfold WheelProvider.get_preference
    simp
  refine ⟨hlen, ?_⟩
  rw [hlen, hlen]
  exact h

/-- Claim C5: for a candidate whose wheel advertises at least one tag of
the provider's tag order, candidate_sort_key is exactly the lexicographic
triple of the version, the tag-order length minus the least matching
position, and the build tag; descending order on such keys lets the higher
version, then the higher tag rank, then the larger build tag win. -/
theorem candidate_sort_key_spec (p : WheelProvider) (c : Candidate)
    (h : ∃ t ∈ p.tags, t ∈ c.file.wheel.tags) :
    (∃ i, IsLeast {j | j < p.tags.length ∧ p.tags.getD j "" ∈ c.file.wheel.tags} i ∧
      p.candidate_sort_key c =
        some (c.file.version, p.tags.length - i, c.file.wheel.buildTag)) ∧
    (∀ v₁ v₂ : Version, ∀ r₁ r₂ : Nat, ∀ b₁ b₂ : BuildTag, v₁ < v₂ →
      sortKeyLE (v₁, r₁, b₁) (v₂, r₂, b₂) = true ∧
      sortKeyLE (v₂, r₂, b₂) (v₁, r₁, b₁) = false) ∧
    (∀ v : Version, ∀ r₁ r₂ : Nat, ∀ b₁ b₂ : BuildTag, r₁ < r₂ →
      sortKeyLE (v, r₁, b₁) (v, r₂, b₂) = true ∧
      sortKeyLE (v, r₂, b₂) (v, r₁, b₁) = false) ∧
    (∀ v : Version, ∀ r : Nat, ∀ b₁ b₂ : BuildTag,
      buildTagLE b₁ b₂ = true → buildTagLE b₂ b₁ = false →
      sortKeyLE (v, r, b₁) (v, r, b₂) = true ∧
      sortKeyLE (v, r, b₂) (v, r, b₁) = false) := by
  refine ⟨?_, ?_, ?_, ?_⟩
  · cases hi : firstTagIdx c.file.wheel.tags p.tags with
    | none =>
      obtain ⟨t, htp, htw⟩ := h
      exact absurd htw ((firstTagIdx_none_iff _ _).mp hi t htp)
    | some i =>
      refine ⟨i, firstTagIdx_isLeast _ _ i hi, ?_⟩
      unfold WheelProvider.candidate_sort_key
      rw [hi]
  · intro v₁ v₂ r₁ r₂ b₁ b₂ hv
    constructor
    · show (if v₁ < v₂ then true else _) = true
      rw [if_pos hv]
    · show (if v₂ < v₁ then true else if v₁ < v₂ then false else _) = false
      rw [if_neg (Nat.lt_asymm hv), if_pos hv]
  · intro v r₁ r₂ b₁ b₂ hr
    constructor
    · show (if v < v then true
        else if v < v then false
        else if r₁ < r₂ then true else _) = true
      rw [if_neg (Nat.lt_irrefl v), if_neg (Nat.lt_irrefl v), if_pos hr]
    · show (if v < v then true
        else if v < v then false
        else if r₂ < r₁ then true
        else if r₁ < r₂ then false else _) = false
      rw [if_neg (Nat.lt_irrefl v), if_neg (Nat.lt_irrefl v),
        if_neg (Nat.lt_asymm hr), if_pos hr]
  · intro v r b₁ b₂ hb₁ hb₂
    constructor
    · show (if v < v then true
        else if v < v then false
        else if r < r then true
        else if r < r then false else buildTagLE b₁ b₂) = true
      rw [if_neg (Nat.lt_irrefl v), if_neg (Nat.lt_irrefl v),
        if_neg (Nat.lt_irrefl r), if_neg (Nat.lt_irrefl r)]
      exact hb₁
    · show (if v < v then true
        else if v < v then false
        else if r < r then true
        else if r < r then false else buildTagLE b₂ b₁) = false
      rw [if_neg (Nat.lt_irrefl v), if_neg (Nat.lt_irrefl v),
        if_neg (Nat.lt_irrefl r), if_neg (Nat.lt_irrefl r)]
      exact hb₂

/-- Claim C2: when the candidate's identifier carries extras,
get_dependencies emits a synthesized exact-version requirement with the
bare identity pinning the candidate's version, placed first, before the
requirements taken from the metadata dependency list in metadata order;
with empty extras no pin is emitted. -/
theorem get_dependencies_self_pin (p : WheelProvider) (c : Candidate)
    (md : Metadata) (hmd : c.file.metadata = some md)
    (hcanon : canonicalizeName c.identifier.1 = c.identifier.1) :
    (c.identifier.2.Nonempty →
      ∃ pin,
        (p.get_dependencies c).1 =
          pin :: (md.requiresDist.filter
            (fun r => p.dependencyIncluded c.identifier.2 r)).map
              (fun r => Requirement.mk (stripMarker r)) ∧
        pin.identifier = (c.identifier.1, (∅ : Finset String)) ∧
        pin.req.specifier = [⟨SpecOp.eq, c.file.version⟩]) ∧
    (c.identifier.2 = ∅ →
      (p.get_dependencies c).1 =
        (md.requiresDist.filter
          (fun r => p.dependencyIncluded c.identifier.2 r)).map
            (fun r => Requirement.mk (stripMarker r))) := by
  unfold WheelProvider.get_dependencies
  simp only [hmd]
  constructor
  · intro hne
    refine ⟨Requirement.mk (stripMarker
      { name := c.identifier.1, extras := ∅,
        specifier := [⟨SpecOp.eq, c.file.version⟩], marker := none }), ?_, ?_, ?_⟩
    · rw [selfPinReqs, if_pos hne]
      rfl
    · unfold Requirement.identifier stripMarker
      simp [hcanon]
    · rfl
  · intro h0
    rw [selfPinReqs, if_neg (by simp [h0])]
    rfl

/-- Claim C3: an entry of the metadata dependency list contributes to the
get_dependencies result exactly when it has no marker, or its marker
evaluates to true in the environment, or extras are present and the marker
evaluates to true with some extra bound; the result is the self pin
followed by the included entries, markers stripped, in metadata order. -/
theorem get_dependencies_marker_condition (p : WheelProvider) (c : Candidate)
    (md : Metadata) (hmd : c.file.metadata = some md) :
    (p.get_dependencies c).1 =
      (selfPinReqs c ++ md.requiresDist.filter
        (fun r => p.dependencyIncluded c.identifier.2 r)).map
          (fun r => Requirement.mk (stripMarker r)) ∧
    ∀ r ∈ md.requiresDist,
      (p.dependencyIncluded c.identifier.2 r = true ↔
        (r.marker = none ∨
          ∃ m, r.marker = some m ∧
            (m.evaluate p.environment = true ∨
              (c.identifier.2.Nonempty ∧
                ∃ e ∈ c.identifier.2,
                  m.evaluate (envWithExtra p.environment e) = true)))) := by
  constructor
  · unfold WheelProvider.get_dependencies
    simp only [hmd]
  · intro r _
    unfold WheelProvider.dependencyIncluded
    cases hm : r.marker with
    | none => simp
    | some m =>
      simp only [Option.some.injEq, reduceCtorEq, false_or, exists_eq_left']
      by_cases h₁ : m.evaluate p.environment = true
      · simp [h₁]
      · rw [if_neg h₁]
        by_cases h₂ : c.identifier.2.Nonempty ∧
            ∃ e ∈ c.identifier.2, m.evaluate (envWithExtra p.environment e) = true
        · rw [if_pos h₂]
          simp [h₂]
        · rw [if_neg h₂]
          simp [h₁, h₂]

/-- Claim C4 fails on the code: get_dependencies wraps the metadata's own
dependency entry and then sets its marker to None in place, so after the
call the candidate's metadata differs from its pre-call value; evaluated
here at a concrete candidate with an extras-gated dependency. -/
theorem get_dependencies_mutates_metadata :
    candBonus.file.metadata = some mdBonus ∧
    mdBonus.requiresDist = [depBacon] ∧
    depBacon.marker = some markerBonus ∧
    (testProvider.get_dependencies candBonus).2 =
      some ⟨none, [{ depBacon with marker := none }]⟩ ∧
    (testProvider.get_dependencies candBonus).2 ≠ candBonus.file.metadata := by
  refine ⟨rfl, rfl, rfl, by decide, by decide⟩

/-
Lemmas for the run-level invariants: metadata is fetched at most once and
the cache is filled exactly once per name.
-/

theorem fmBatch_metadata_none (p : WheelProvider) (st : ProviderState)
    (identifier : Identifier) (requirements : Identifier → Option (List Requirement))
    (f : WheelFile) (h : f ∈ fmBatch p st identifier requirements) :
    f.metadata = none := by
  have h2 := (List.mem_filter.mp h).2
  simpa [Option.isNone_iff_eq_none] using h2

theorem fmBatch_sub_files (p : WheelProvider) (st : ProviderState)
    (identifier : Identifier) (requirements : Identifier → Option (List Requirement))
    (f : WheelFile) (h : f ∈ fmBatch p st identifier requirements) :
    f ∈ ensureFiles p st identifier.1 :=
  mem_filterLoop p requirements identifier _ f (List.mem_filter.mp h).1

theorem attach_eq_of_metadata_none (p : WheelProvider) (st : ProviderState)
    (identifier : Identifier) (requirements : Identifier → Option (List Requirement))
    (f g : WheelFile) (hg : fmAttach p st identifier requirements g = f)
    (hfn : f.metadata = none) :
    g = f ∧ g ∉ fmBatch p st identifier requirements := by
  unfold fmAttach at hg
  by_cases hb : g ∈ fmBatch p st identifier requirements
  · rw [if_pos hb] at hg
    rw [← hg] at hfn
    simp [attachMetadata] at hfn
  · rw [if_neg hb] at hg
    exact ⟨hg, hb⟩

theorem after_fetch_gone (p : WheelProvider) (st : ProviderState)
    (identifier : Identifier) (requirements : Identifier → Option (List Requirement))
    (incompatibilities : Identifier → List Candidate) (f : WheelFile)
    (hf : f ∈ fmBatch p st identifier requirements) :
    FetchedGone f identifier.1
      (p.find_matches st identifier requirements incompatibilities).state := by
  refine ⟨(ensureFiles p st identifier.1).map (fmAttach p st identifier requirements),
    by rw [find_matches_state, if_pos rfl], ?_⟩
  intro hmem
  obtain ⟨g, _hgf, hfg⟩ := List.mem_map.mp hmem
  have hfn : f.metadata = none :=
    fmBatch_metadata_none p st identifier requirements f hf
  obtain ⟨heq, hnb⟩ :=
    attach_eq_of_metadata_none p st identifier requirements f g hfg hfn
  exact hnb (by rw [heq]; exact hf)

theorem gone_preserved (p : WheelProvider) (st : ProviderState)
    (identifier : Identifier) (requirements : Identifier → Option (List Requirement))
    (incompatibilities : Identifier → List Candidate) (f : WheelFile) (n : DistName)
    (hg : FetchedGone f n st) (hfn : f.metadata = none) :
    FetchedGone f n
      (p.find_matches st identifier requirements incompatibilities).state := by
  obtain ⟨l, hl, hfl⟩ := hg
  by_cases hn : n = identifier.1
  · subst hn
    have hens : ensureFiles p st identifier.1 = l := by
      unfold ensureFiles
      rw [hl]

    refine ⟨l.map (fmAttach p st identifier requirements), ?_, ?_⟩
    · rw [find_matches_state, if_pos rfl, hens]
    · intro hmem
      obtain ⟨g, hgl, hfg⟩ := List.mem_map.mp hmem
      obtain ⟨heq, -⟩ :=
        attach_eq_of_metadata_none p st identifier requirements f g hfg hfn
      exact hfl (heq ▸ hgl)
  · exact ⟨l, by rw [find_matches_state, if_neg hn]; exact hl, hfl⟩

theorem gone_no_fetch (p : WheelProvider) (st : ProviderState)
    (identifier : Identifier) (requirements : Identifier → Option (List Requirement))
    (f : WheelFile) (n : DistName) (hg : FetchedGone f n st)
    (hn : identifier.1 = n) :
    f ∉ fmBatch p st identifier requirements := by
  intro hf
  obtain ⟨l, hl, hfl⟩ := hg
  have hmem : f ∈ ensureFiles p st identifier.1 :=
    fmBatch_sub_files p st identifier requirements f hf
  rw [hn] at hmem
  unfold ensureFiles at hmem
  rw [hl] at hmem
  exact hfl hmem

theorem gone_run (p : WheelProvider) (f : WheelFile) (n : DistName)
    (calls : List ResolveCall) :
    ∀ st, FetchedGone f n st → f.metadata = none →
      ∀ pr ∈ calls.zip (runCalls p st calls).2,
        pr.1.identifier.1 = n → f ∉ pr.2.fetchedBatch := by
  induction calls with
  | nil =>
    intro st _ _ pr hpr
    simp [runCalls] at hpr
  | cons c cs ih =>
    intro st hg hfn pr hpr hprn
    simp only [runCalls, List.zip_cons_cons] at hpr
    rcases List.mem_cons.mp hpr with h | h
    · subst h
      rw [find_matches_batch]
      exact gone_no_fetch p st c.identifier c.requirements f n hg hprn
    · exact ih (p.find_matches st c.identifier c.requirements c.incompatibilities).state
        (gone_preserved p st c.identifier c.requirements c.incompatibilities f n hg hfn)
        hfn pr h hprn

theorem availQueried_eq (p : WheelProvider) (st : ProviderState)
    (identifier : Identifier) (requirements : Identifier → Option (List Requirement))
    (incompatibilities : Identifier → List Candidate) (n : DistName) :
    (p.find_matches st identifier requirements incompatibilities).availQueried =
        some n ↔
      n = identifier.1 ∧ st.cache identifier.1 = none := by
  rw [find_matches_avail]
  unfold ensureQueried
  cases hc : st.cache identifier.1 with
  | some l => simp
  | none => simp [eq_comm]

theorem state_cache_mono (p : WheelProvider) (st : ProviderState)
    (identifier : Identifier) (requirements : Identifier → Option (List Requirement))
    (incompatibilities : Identifier → List Candidate) (n : DistName)
    (h : (st.cache n).isSome = true) :
    ((p.find_matches st identifier requirements incompatibilities).state.cache
      n).isSome = true := by
  rw [find_matches_state]
  by_cases hn : n = identifier.1
  · rw [if_pos hn]
    rfl
  · rw [if_neg hn]
    exact h

theorem run_count_zero (p : WheelProvider) (n : DistName) (calls : List ResolveCall) :
    ∀ st, (st.cache n).isSome = true →
      (runCalls p st calls).2.countP
        (fun r => decide (r.availQueried = some n)) = 0 := by
  induction calls with
  | nil =>
    intro st _
    simp [runCalls]
  | cons c cs ih =>
    intro st h
    simp only [runCalls]
    rw [List.countP_cons]
    have hq : ¬((p.find_matches st c.identifier c.requirements
        c.incompatibilities).availQueried = some n) := by
      rw [availQueried_eq]
      rintro ⟨hn, hnone⟩
      subst hn
      rw [hnone] at h
      cases h
    rw [ih _ (state_cache_mono p st c.identifier c.requirements
      c.incompatibilities n h)]
    simp [hq]

theorem run_count_one (p : WheelProvider) (n : DistName) (calls : List ResolveCall) :
    ∀ st, st.cache n = none →
      ((runCalls p st calls).1.cache n).isSome = true →
      (runCalls p st calls).2.countP
        (fun r => decide (r.availQueried = some n)) = 1 := by
  induction calls with
  | nil =>
    intro st h hf
    simp only [runCalls] at hf
    rw [h] at hf
    cases hf
  | cons c cs ih =>
    intro st h hf
    simp only [runCalls] at hf ⊢
    rw [List.countP_cons]
    by_cases hn : n = c.identifier.1
    · subst hn
      have hq : (p.find_matches st c.identifier c.requirements
          c.incompatibilities).availQueried = some c.identifier.1 := by
        rw [availQueried_eq]
        exact ⟨rfl, h⟩
      have hpost : (((p.find_matches st c.identifier c.requirements
          c.incompatibilities).state).cache c.identifier.1).isSome = true := by
        rw [find_matches_state, if_pos rfl]
        rfl
      rw [run_count_zero p c.identifier.1 cs _ hpost]
      simp [hq]
    · have hpost : ((p.find_matches st c.identifier c.requirements
          c.incompatibilities).state).cache n = none := by
        rw [find_matches_state, if_neg hn]
        exact h
      have hq : ¬((p.find_matches st c.identifier c.requirements
          c.incompatibilities).availQueried = some n) := by
        rw [availQueried_eq]
        rintro ⟨hn', -⟩
        exact hn hn'
      rw [ih _ hpost hf]
      simp [hq]

theorem find_matches_cacheWF (p : WheelProvider) (st : ProviderState)
    (identifier : Identifier) (requirements : Identifier → Option (List Requirement))
    (incompatibilities : Identifier → List Candidate) (hwf : CacheWF p st) :
    CacheWF p (p.find_matches st identifier requirements incompatibilities).state := by
  intro n l hl f hf
  rw [find_matches_state] at hl
  by_cases hn : n = identifier.1
  · rw [if_pos hn, Option.some.injEq] at hl
    subst hl
    obtain ⟨g, hg, hfg⟩ := List.mem_map.mp hf
    exact hfg ▸ compatFile_fmAttach p st identifier requirements g
      (ensureFiles_compat p st identifier.1 hwf g hg)
  · rw [if_neg hn] at hl
    exact hwf n l hl f hf

theorem runCalls_cacheWF (p : WheelProvider) (calls : List ResolveCall) :
    ∀ st, CacheWF p st → CacheWF p (runCalls p st calls).1 := by
  induction calls with
  | nil =>
    intro st h
    simpa [runCalls] using h
  | cons c cs ih =>
    intro st h
    simp only [runCalls]
    exact ih _ (find_matches_cacheWF p st c.identifier c.requirements
      c.incompatibilities h)

/-- Claim C6: running from an empty cache, every name present in the final
cache was filled by exactly one available_files call during the run, and
every retained file has a tag in the provider's tag order and a listed
requires-python constraint, if any, admitting the provider's python
version. -/
theorem cache_computed_once (p : WheelProvider) (calls : List ResolveCall) :
    CacheRunSpec p calls := by
  intro n l hl
  constructor
  · exact run_count_one p n calls emptyState rfl (by rw [hl]; rfl)
  · have hwf : CacheWF p (runCalls p emptyState calls).1 :=
      runCalls_cacheWF p calls emptyState (fun n l h => nomatch h)
    exact hwf n l hl

/-- Claim C7: in every find_matches call of a run the batch passed to
fetch_metadata holds only metadata-pending files, and two calls on the
same name never hand the same file to fetch_metadata twice. -/
theorem fetch_metadata_once (p : WheelProvider) (st : ProviderState)
    (calls : List ResolveCall) : FetchOnceSpec p st calls := by
  constructor
  · induction calls generalizing st with
    | nil =>
      intro r hr
      simp [runCalls] at hr
    | cons c cs ih =>
      intro r hr
      simp only [runCalls] at hr
      rcases List.mem_cons.mp hr with h | h
      · subst h
        rw [find_matches_batch]
        intro f hf
        exact fmBatch_metadata_none p st c.identifier c.requirements f hf
      · exact ih _ r h
  · induction calls generalizing st with
    | nil => simp [runCalls]
    | cons c cs ih =>
      simp only [runCalls, List.zip_cons_cons]
      refine List.Pairwise.cons ?_ (ih _)
      intro pr hpr hn f hf
      rw [find_matches_batch] at hf
      exact gone_run p f c.identifier.1 cs
        (p.find_matches st c.identifier c.requirements c.incompatibilities).state
        (after_fetch_gone p st c.identifier c.requirements c.incompatibilities f hf)
        (fmBatch_metadata_none p st c.identifier c.requirements f hf)
        pr hpr hn.symm

/-
Witnesses: each hypothesis-bearing claim theorem applied at a concrete
input with the hypotheses discharged by evaluation.
-/

theorem emptyState_wf (p : WheelProvider) : CacheWF p emptyState :=
  fun _ _ h => nomatch h

theorem find_matches_characterization_witness :
    reqsSpamOnly (("spam", ∅) : Identifier) = some [reqSpam] ∧
    [reqSpam] ≠ [] ∧
    (∀ r ∈ [reqSpam], r.identifier = (("spam", ∅) : Identifier)) ∧
    CacheWF testProvider emptyState ∧
    FindMatchesSpec testProvider emptyState (("spam", ∅) : Identifier) reqsSpamOnly
      noIncompat [reqSpam] :=
  ⟨by decide, by decide, by decide, emptyState_wf testProvider,
    find_matches_characterization testProvider emptyState (("spam", ∅) : Identifier)
      reqsSpamOnly noIncompat [reqSpam] (by decide) (by decide) (by decide)
      (emptyState_wf testProvider)⟩

theorem find_matches_sort_key_safe_witness :
    CacheWF testProvider emptyState ∧
    (∃ out,
      (testProvider.find_matches emptyState (("spam", ∅) : Identifier) reqsSpamOnly
        noIncompat).returned = some out ∧
      ∀ c ∈ out, (testProvider.candidate_sort_key c).isSome = true) :=
  ⟨emptyState_wf testProvider,
    find_matches_sort_key_safe testProvider emptyState (("spam", ∅) : Identifier)
      reqsSpamOnly noIncompat (emptyState_wf testProvider)⟩

theorem find_matches_no_active_requirements_witness :
    noReqs (("spam", ∅) : Identifier) = none ∧
    cachedState.cache "spam" = some [fileOld, fileNew] ∧
    (fmFiltered testProvider cachedState (("spam", ∅) : Identifier) noReqs = [] ∧
      (testProvider.find_matches cachedState (("spam", ∅) : Identifier) noReqs
        noIncompat).returned = some []) :=
  ⟨rfl, by decide,
    find_matches_no_active_requirements testProvider cachedState
      (("spam", ∅) : Identifier) noReqs noIncompat rfl⟩

theorem get_preference_counts_witness :
    (candsOneSpam (("eggs", ∅) : Identifier)).length <
      (candsOneSpam (("spam", ∅) : Identifier)).length ∧
    ((∀ j, testProvider.get_preference j noResolutions candsOneSpam =
        (candsOneSpam j).length) ∧
      testProvider.get_preference (("eggs", ∅) : Identifier) noResolutions
          candsOneSpam <
        testProvider.get_preference (("spam", ∅) : Identifier) noResolutions
          candsOneSpam) :=
  ⟨by decide,
    get_preference_counts testProvider noResolutions candsOneSpam
      (("eggs", ∅) : Identifier) (("spam", ∅) : Identifier) (by decide)⟩

theorem candidate_sort_key_spec_witness :
    (∃ t ∈ testProvider.tags, t ∈ candNew.file.wheel.tags) ∧
    ((∃ i, IsLeast {j | j < testProvider.tags.length ∧
        testProvider.tags.getD j "" ∈ candNew.file.wheel.tags} i ∧
      testProvider.candidate_sort_key candNew =
        some (candNew.file.version, testProvider.tags.length - i,
          candNew.file.wheel.buildTag)) ∧
    (∀ v₁ v₂ : Version, ∀ r₁ r₂ : Nat, ∀ b₁ b₂ : BuildTag, v₁ < v₂ →
      sortKeyLE (v₁, r₁, b₁) (v₂, r₂, b₂) = true ∧
      sortKeyLE (v₂, r₂, b₂) (v₁, r₁, b₁) = false) ∧
    (∀ v : Version, ∀ r₁ r₂ : Nat, ∀ b₁ b₂ : BuildTag, r₁ < r₂ →
      sortKeyLE (v, r₁, b₁) (v, r₂, b₂) = true ∧
      sortKeyLE (v, r₂, b₂) (v, r₁, b₁) = false) ∧
    (∀ v : Version, ∀ r : Nat, ∀ b₁ b₂ : BuildTag,
      buildTagLE b₁ b₂ = true → buildTagLE b₂ b₁ = false →
      sortKeyLE (v, r, b₁) (v, r, b₂) = true ∧
      sortKeyLE (v, r, b₂) (v, r, b₁) = false)) :=
  ⟨by decide, candidate_sort_key_spec testProvider candNew (by decide)⟩

theorem get_dependencies_self_pin_witness :
    candBonus.file.metadata = some mdBonus ∧
    canonicalizeName candBonus.identifier.1 = candBonus.identifier.1 ∧
    ((candBonus.identifier.2.Nonempty →
      ∃ pin,
        (testProvider.get_dependencies candBonus).1 =
          pin :: (mdBonus.requiresDist.filter
            (fun r => testProvider.dependencyIncluded candBonus.identifier.2 r)).map
              (fun r => Requirement.mk (stripMarker r)) ∧
        pin.identifier = (candBonus.identifier.1, (∅ : Finset String)) ∧
        pin.req.specifier = [⟨SpecOp.eq, candBonus.file.version⟩]) ∧
    (candBonus.identifier.2 = ∅ →
      (testProvider.get_dependencies candBonus).1 =
        (mdBonus.requiresDist.filter
          (fun r => testProvider.dependencyIncluded candBonus.identifier.2 r)).map
            (fun r => Requirement.mk (stripMarker r)))) :=
  ⟨rfl, by decide,
    get_dependencies_self_pin testProvider candBonus mdBonus rfl (by decide)⟩

theorem get_dependencies_marker_condition_witness :
    candBonus.file.metadata = some mdBonus ∧
    ((testProvider.get_dependencies candBonus).1 =
      (selfPinReqs candBonus ++ mdBonus.requiresDist.filter
        (fun r => testProvider.dependencyIncluded candBonus.identifier.2 r)).map
          (fun r => Requirement.mk (stripMarker r)) ∧
    ∀ r ∈ mdBonus.requiresDist,
      (testProvider.dependencyIncluded candBonus.identifier.2 r = true ↔
        (r.marker = none ∨
          ∃ m, r.marker = some m ∧
            (m.evaluate testProvider.environment = true ∨
              (candBonus.identifier.2.Nonempty ∧
                ∃ e ∈ candBonus.identifier.2,
                  m.evaluate (envWithExtra testProvider.environment e) = true))))) :=
  ⟨rfl, get_dependencies_marker_condition testProvider candBonus mdBonus rfl⟩

theorem cache_computed_once_witness :
    ((runCalls testProvider emptyState [callSpam]).1.cache "spam").isSome = true ∧
    CacheRunSpec testProvider [callSpam] :=
  ⟨by decide, cache_computed_once testProvider [callSpam]⟩

theorem fetch_metadata_once_witness :
    (testProvider.find_matches emptyState (("spam", ∅) : Identifier) reqsSpamOnly
      noIncompat).fetchedBatch = [fileOld] ∧
    FetchOnceSpec testProvider emptyState [callSpam, callSpam] :=
  ⟨by decide, fetch_metadata_once testProvider emptyState [callSpam, callSpam]⟩

end Mousebender
